import Mathlib

/-
Verification of the dogwater plugin (src/lib/index.js): a registration-time
aggregator that merges per-plugin ORM configuration fragments (adapters,
connections, models, defaults) into one shared collector, tracks which model
identities each scope registered, and drives one initialize/teardown cycle of
the external Waterline ORM.

The embedding below translates the JavaScript source shallowly:
  - JS values relevant to the checks are modelled by `JSValue` with JS
    truthiness; JS objects used as string-keyed maps are association lists
    with JS assignment semantics (overwrite in place, else append);
  - the collector, the merge loops of `internals.dogwater`, the
    defaults/teardownOnStop handling of `exports.register`, the
    `internals.initialize` / `internals.stop` lifecycle hooks and the
    `internals.collections` accessor are translated function by function;
  - the external Waterline engine is not part of the repository; its
    collection production is modelled from the spec (see `waterlineInit`).
-/

namespace Dogwater

/-- JS runtime values, as far as the source inspects them: the duplicate
checks in src/lib/index.js test JS truthiness of stored entries, and the
version guard uses strict equality between a string and a number. -/
inductive JSValue where
  | undefined
  | null
  | bool (b : Bool)
  | num (n : Int)
  | str (s : String)
  | obj (id : Nat)
deriving DecidableEq

/-- JS truthiness: `undefined`, `null`, `false`, `0` and `""` are falsy;
every object is truthy. -/
def JSValue.truthy : JSValue → Bool
  | .undefined => false
  | .null => false
  | .bool b => b
  | .num n => n != 0
  | .str s => s != ""
  | .obj _ => true

/-- JS strict equality (`===`): operands of different types are never equal. -/
def jsStrictEq : JSValue → JSValue → Bool
  | .undefined, .undefined => true
  | .null, .null => true
  | .bool a, .bool b => a == b
  | .num a, .num b => a == b
  | .str a, .str b => a == b
  | .obj a, .obj b => a == b
  | _, _ => false

/-- Digit-string accumulator for the integer fragments of a version string. -/
def parseDigitsAux : List Char → Nat → Option Nat
  | [], acc => some acc
  | c :: rest, acc =>
    if c.isDigit then parseDigitsAux rest (acc * 10 + (c.toNat - 48)) else none

/-- JS `ToNumber` on a string, restricted to the integer literals that occur
as version components (`""` converts to 0, a non-numeric string to NaN,
modelled as `none`). -/
def jsStringToNumber (s : String) : Option Int :=
  match s.data with
  | [] => some 0
  | '-' :: c :: rest => (parseDigitsAux (c :: rest) 0).map (fun n => -(n : Int))
  | cs => (parseDigitsAux cs 0).map (fun n => (n : Int))

/-- JS `ToNumber` on the values the version comparison can see; `none` is NaN. -/
def jsToNumber : JSValue → Option Int
  | .undefined => none
  | .null => some 0
  | .bool b => some (if b then 1 else 0)
  | .num n => some n
  | .str s => jsStringToNumber s
  | .obj _ => none

/-- JS `>=` between a version component and a number: numeric comparison,
false when either side converts to NaN. -/
def jsGe (a b : JSValue) : Bool :=
  match jsToNumber a, jsToNumber b with
  | some x, some y => y ≤ x
  | _, _ => false

/-- Association-list lookup, modelling `m[k]` on a JS object used as a map
(`none` plays the role of an absent property reading as `undefined`). -/
def assocGet {κ α : Type} [DecidableEq κ] : List (κ × α) → κ → Option α
  | [], _ => none
  | (k', v) :: rest, k => if k' = k then some v else assocGet rest k

/-- Overwrite one entry if its key matches (helper for `assocSet`). -/
def entrySet {κ α : Type} [DecidableEq κ] (k : κ) (v : α) (p : κ × α) : κ × α :=
  if p.1 = k then (k, v) else p

/-- JS property assignment `m[k] = v` on an object used as a map: an existing
key is overwritten in place, a new key is appended (JS insertion order). -/
def assocSet {κ α : Type} [DecidableEq κ] (m : List (κ × α)) (k : κ) (v : α) : List (κ × α) :=
  if (assocGet m k).isSome then m.map (entrySet k v)
  else m ++ [(k, v)]

/-- Reading `m[k]` as a JS value: an absent key reads as `undefined`. -/
def objGet (m : List (String × JSValue)) (k : String) : JSValue :=
  (assocGet m k).getD .undefined

/-- `semverSplit` (src/lib/index.js lines 3-12) splits on `'.'` and keeps the
parts as strings; an out-of-range index reads as `undefined`. -/
structure Semver where
  MAJOR : JSValue
  MINOR : JSValue
  PATCH : JSValue
deriving DecidableEq

/-- JS `String.prototype.split` with separator `'.'`, on the character list. -/
def splitOnDot : List Char → List (List Char)
  | [] => [[]]
  | c :: rest =>
    match splitOnDot rest with
    | [] => if c = '.' then [[], []] else [[c]]
    | group :: groups =>
      if c = '.' then [] :: group :: groups else (c :: group) :: groups

/-- JS array indexing: out of range reads as `undefined`. -/
def jsIndex (parts : List String) (i : Nat) : JSValue :=
  match parts[i]? with
  | some s => .str s
  | none => .undefined

/-- `semverSplit` from the source: the MAJOR/MINOR/PATCH fields hold the
STRING parts of the version (this is what makes the `=== 0` guard dead). -/
def semverSplit (version : String) : Semver :=
  let versionParts := (splitOnDot version.data).map (fun cs => String.mk cs)
  { MAJOR := jsIndex versionParts 0
    MINOR := jsIndex versionParts 1
    PATCH := jsIndex versionParts 2 }

/-- A model definition: the schema requires an `identity`; the rest of the
definition is opaque to the merge layer. Model definitions are JS objects,
hence always truthy. -/
structure ModelDef where
  identity : String
  body : JSValue
deriving DecidableEq

/-- The Global Collector (src/lib/index.js lines 32-45). `connections` is an
`Option` because lines 43-44 would set it to `undefined` when the version
branch fires; `datastores` is absent (`none`) unless that branch fires. -/
structure Collector where
  adapters : List (String × JSValue)
  connections : Option (List (String × JSValue))
  datastores : Option (List (String × JSValue))
  models : List (String × ModelDef)
  defaults : List (String × JSValue)
  teardownOnStop : Option Bool
deriving DecidableEq

/-- Collector creation on first registration (lines 32-45), including the
version-guarded rename of `connections` to `datastores` (lines 40-45). -/
def initialCollector (ver : Semver) : Collector :=
  let base : Collector :=
    { adapters := []
      connections := some []
      datastores := none
      models := []
      defaults := []
      teardownOnStop := none }
  if jsStrictEq ver.MAJOR (.num 0) && jsGe ver.MINOR (.num 13) then
    { base with datastores := base.connections, connections := none }
  else base

/-- Whole-plugin state: the root collector plus, per scope (realm), the list
of model identities that scope registered (`internals.state`, line 221-226,
field `models` set at line 193). -/
structure PState where
  collector : Collector
  scopes : List (Nat × List String)
deriving DecidableEq

/-- State after setup on first registration: fresh collector, no scope has
registered any model yet. -/
def pInit (ver : Semver) : PState :=
  { collector := initialCollector ver, scopes := [] }

/-- The model identities recorded for one scope (realm). -/
def scopeModels (st : PState) (s : Nat) : List String :=
  (assocGet st.scopes s).getD []

/-- `state.models = (state.models || []).concat(modelIds)` (line 193). -/
def scopeAppend (scopes : List (Nat × List String)) (s : Nat) (ids : List String) :
    List (Nat × List String) :=
  assocSet scopes s ((assocGet scopes s).getD [] ++ ids)

/-- A normalized config fragment: the shape reached at line 166 of the source
after array coercion and empty-defaulting. -/
structure Fragment where
  adapters : List (String × JSValue)
  connections : List (String × JSValue)
  models : List ModelDef
deriving DecidableEq

/-- Input to `internals.dogwater` after schema validation: either a bare
array of models or a config object with optional fields. -/
inductive DogwaterInput where
  | arr (models : List ModelDef)
  | obj (adapters : Option (List (String × JSValue)))
        (connections : Option (List (String × JSValue)))
        (models : Option (List ModelDef))
deriving DecidableEq

/-- Lines 156-164: coerce a bare array to `{ models: ... }` and default the
absent fields to empty. -/
def normalize : DogwaterInput → Fragment
  | .arr ms => { adapters := [], connections := [], models := ms }
  | .obj a c m => { adapters := a.getD [], connections := c.getD [], models := m.getD [] }

/-- The object-shaped input corresponding to a fragment. -/
def Fragment.toInput (f : Fragment) : DogwaterInput :=
  .obj (some f.adapters) (some f.connections) (some f.models)

/-- Merge errors raised by `internals.dogwater`: the three `Hoek.assert`
duplicate failures (lines 175, 181, 187), each naming its kind and key, and
the TypeError that reading a property of `undefined` would raise at line 181
if `collector.connections` had been set to `undefined`. -/
inductive MergeErr where
  | dupAdapter (name : String)
  | dupConnection (name : String)
  | dupModel (id : String)
  | typeError
deriving DecidableEq

/-- One `forEach` duplicate-check-and-insert loop over the keys of a fragment
map (the shape shared by lines 173-177, 179-183 and the defaults loop at
lines 63-67): fail on a truthy stored entry, otherwise assign. -/
def collectInto {ε : Type} (mkErr : String → ε) :
    List (String × JSValue) → List (String × JSValue) →
    List (String × JSValue) × Option ε
  | coll, [] => (coll, none)
  | coll, (name, v) :: rest =>
    if (objGet coll name).truthy then (coll, some (mkErr name))
    else collectInto mkErr (assocSet coll name v) rest

/-- The adapters loop, lines 173-177. -/
def mergeAdapters (coll frag : List (String × JSValue)) :
    List (String × JSValue) × Option MergeErr :=
  collectInto MergeErr.dupAdapter coll frag

/-- The connections loop, lines 179-183. When `collector.connections` is
`undefined` the first iteration's property read raises a TypeError; with no
connection names the loop body never runs. -/
def mergeConnections (connOpt : Option (List (String × JSValue)))
    (frag : List (String × JSValue)) :
    Option (List (String × JSValue)) × Option MergeErr :=
  match connOpt, frag with
  | connOpt, [] => (connOpt, none)
  | none, _ :: _ => (none, some .typeError)
  | some cs, f =>
    ((collectInto MergeErr.dupConnection cs f).1 |> some,
     (collectInto MergeErr.dupConnection cs f).2)

/-- The models loop, lines 185-189. Stored model definitions are JS objects,
hence truthy, so the source's `!collector.models[id]` is a presence check. -/
def mergeModels : List (String × ModelDef) → List ModelDef →
    List (String × ModelDef) × Option MergeErr
  | coll, [] => (coll, none)
  | coll, m :: rest =>
    if (assocGet coll m.identity).isSome then (coll, some (.dupModel m.identity))
    else mergeModels (assocSet coll m.identity m) rest

/-- Models stage of `internals.dogwater` (lines 185-193): merge the models,
then on success record the fragment's identities for the calling scope. -/
def dogwaterModels (scope : Nat) (f : Fragment) (st : PState) : PState × Option MergeErr :=
  let r := mergeModels st.collector.models f.models
  let st' : PState := { st with collector := { st.collector with models := r.1 } }
  match r.2 with
  | some e => (st', some e)
  | none =>
    ({ st' with scopes := scopeAppend st'.scopes scope (f.models.map ModelDef.identity) },
     none)

/-- Connections stage of `internals.dogwater` (lines 179-183), then models. -/
def dogwaterConnections (scope : Nat) (f : Fragment) (st : PState) : PState × Option MergeErr :=
  let r := mergeConnections st.collector.connections f.connections
  let st' : PState := { st with collector := { st.collector with connections := r.1 } }
  match r.2 with
  | some e => (st', some e)
  | none => dogwaterModels scope f st'

/-- Adapters stage of `internals.dogwater` (lines 173-177), then the rest. -/
def dogwaterAdapters (scope : Nat) (f : Fragment) (st : PState) : PState × Option MergeErr :=
  let r := mergeAdapters st.collector.adapters f.adapters
  let st' : PState := { st with collector := { st.collector with adapters := r.1 } }
  match r.2 with
  | some e => (st', some e)
  | none => dogwaterConnections scope f st'

/-- `internals.dogwater` (lines 152-194): normalize the input, then run the
three duplicate-checking merge loops in source order, mutating the collector
in place (a failure leaves the partial updates behind, no rollback), and on
full success append the fragment's model identities to the calling scope's
record. The result pairs the post-call state with the error, if any. -/
def dogwater (scope : Nat) (input : DogwaterInput) (st : PState) : PState × Option MergeErr :=
  dogwaterAdapters scope (normalize input) st

/-- A sequence of `dogwater` registrations, stopping at the first failure. -/
def runSeq : List (Nat × DogwaterInput) → PState → PState × Option MergeErr
  | [], st => (st, none)
  | (s, cfg) :: rest, st =>
    let r := dogwater s cfg st
    match r.2 with
    | none => runSeq rest r.1
    | some e => (r.1, some e)

/-- Errors raised by `exports.register` before it delegates to `dogwater`:
the defaults duplicate assert (line 65) and the teardownOnStop
single-set assert (line 72). -/
inductive RegErr where
  | defaultAlreadySet (key : String)
  | teardownAlreadySet
  | merge (e : MergeErr)
deriving DecidableEq

/-- The defaults loop of `exports.register` (lines 63-67): same
truthiness-guarded assign as the adapter/connection loops. -/
def mergeDefaults (coll frag : List (String × JSValue)) :
    List (String × JSValue) × Option RegErr :=
  collectInto RegErr.defaultAlreadySet coll frag

/-- Plugin options accepted by `exports.register` (after the string-reference
resolution of `internals.registrationConfig`, which is module loading and
external to the merge layer). -/
structure RegOptions where
  adapters : Option (List (String × JSValue))
  connections : Option (List (String × JSValue))
  models : Option (List ModelDef)
  defaults : Option (List (String × JSValue))
  teardownOnStop : Option Bool
deriving DecidableEq

/-- `exports.register` (lines 24-80): set up the collector on first use,
merge `options.defaults` (lines 63-67), apply the once-only
`teardownOnStop` (lines 71-74), then hand the remaining config to
`internals.dogwater` (lines 76-77). -/
def register (ver : Semver) (scope : Nat) (opts : RegOptions) (prev : Option PState) :
    PState × Option RegErr :=
  let st0 := prev.getD (pInit ver)
  let rd := mergeDefaults st0.collector.defaults (opts.defaults.getD [])
  let st1 : PState := { st0 with collector := { st0.collector with defaults := rd.1 } }
  match rd.2 with
  | some e => (st1, some e)
  | none =>
    match opts.teardownOnStop with
    | none =>
      let r := dogwater scope (.obj opts.adapters opts.connections opts.models) st1
      (r.1, r.2.map RegErr.merge)
    | some b =>
      match st1.collector.teardownOnStop with
      | some _ => (st1, some .teardownAlreadySet)
      | none =>
        let st2 : PState :=
          { st1 with collector := { st1.collector with teardownOnStop := some b } }
        let r := dogwater scope (.obj opts.adapters opts.connections opts.models) st2
        (r.1, r.2.map RegErr.merge)

/-- The configuration object handed to `waterline.initialize` (lines
130-134); `connections` is whatever the collector holds, possibly
`undefined`. -/
structure WaterlineConfig where
  adapters : List (String × JSValue)
  connections : Option (List (String × JSValue))
  defaults : List (String × JSValue)
deriving DecidableEq

/-- The part of the external ORM engine's state this layer reads:
`waterline.collections`, absent (`undefined`) before initialization. -/
structure WaterlineState where
  collections : Option (List (String × ModelDef))
deriving DecidableEq

/-- Modelled from the spec: the Waterline ORM engine is an external
collaborator, not code of this repository. Per the spec, successful
initialization turns each loaded model definition into one initialized
collection keyed by its identity, and before initialization no collections
exist. -/
def waterlineInit (loaded : List (String × ModelDef)) : WaterlineState :=
  { collections := some loaded }

/-- `internals.initialize` (lines 117-138): load every collected model into
the engine (lines 123-128) and hand over the adapters/connections/defaults
config (lines 130-137). Returns the config passed and the engine state after
successful initialization. (The source names this `internals.initialize`;
that word is reserved in Lean.) -/
def initializeOrm (c : Collector) : WaterlineConfig × WaterlineState :=
  ({ adapters := c.adapters, connections := c.connections, defaults := c.defaults },
   waterlineInit c.models)

/-- What `internals.stop` (lines 140-150) does with the engine. -/
inductive StopAction where
  | teardownCalled
  | skipped
deriving DecidableEq

/-- `internals.stop`: skip teardown only when `teardownOnStop` is strictly
`false`; `null` (never set) and `true` both tear down. -/
def stop (c : Collector) : StopAction :=
  if c.teardownOnStop = some false then .skipped else .teardownCalled

/-- `internals.collections` (lines 196-219): before initialization
`waterline.collections` is undefined and both variants return `{}`; the
`all` variant returns every engine collection; the scoped variant picks the
calling realm's recorded identities out of the engine's collections (an
identity missing from the engine reads as `undefined`). -/
def collections (w : WaterlineState) (all : Bool) (scopeIds : List String) :
    List (String × Option ModelDef) :=
  match w.collections with
  | none => []
  | some cs =>
    if all then cs.map (fun p => (p.1, some p.2))
    else scopeIds.foldl (fun acc id => assocSet acc id (assocGet cs id)) []

/-- States reachable by any sequence of `dogwater` registrations from a fresh
setup, keeping the post-call state whether or not the call failed. -/
inductive Reach : PState → Prop
  | init (ver : Semver) : Reach (pInit ver)
  | step (s : Nat) (cfg : DogwaterInput) {st : PState} :
      Reach st → Reach (dogwater s cfg st).1

/-- All values of a JS map are truthy (true of every map whose values are
schema-validated objects). -/
def valuesTruthy (m : List (String × JSValue)) : Bool :=
  m.all fun p => p.2.truthy

/-- Schema-level validity of a fragment, modelled from the spec: adapters and
connections are maps from names to definitions (JS objects after reference
resolution, hence truthy), with the key uniqueness of JS object literals, and
the fragment's own model identities are distinct. -/
def Fragment.validB (f : Fragment) : Bool :=
  valuesTruthy f.adapters && valuesTruthy f.connections &&
  decide (f.adapters.map Prod.fst).Nodup &&
  decide (f.connections.map Prod.fst).Nodup &&
  decide (f.models.map ModelDef.identity).Nodup

/-- Collector well-formedness: adapter/connection values truthy and the
connections map present. -/
def CollectorInvB (c : Collector) : Bool :=
  valuesTruthy c.adapters &&
  match c.connections with
  | some cs => valuesTruthy cs
  | none => false

/-- A fragment reuses a key already present in the collector. -/
def sharesKeyB (f : Fragment) (c : Collector) : Bool :=
  f.adapters.any (fun p => (assocGet c.adapters p.1).isSome) ||
  f.connections.any (fun p =>
    match c.connections with
    | some cs => (assocGet cs p.1).isSome
    | none => false) ||
  f.models.any (fun m => (assocGet c.models m.identity).isSome)

/-- The state after one fully successful `dogwater` merge of a fragment whose
keys are all fresh, given that the collector's connections map was `cs`
(used to state the disjoint-merge lemmas compactly). -/
def freshStep (st : PState) (scope : Nat) (f : Fragment) (cs : List (String × JSValue)) :
    PState :=
  { st with
    collector :=
      { st.collector with
        adapters := st.collector.adapters ++ f.adapters,
        connections := some (cs ++ f.connections),
        models := st.collector.models ++ f.models.map (fun m => (m.identity, m)) },
    scopes := scopeAppend st.scopes scope (f.models.map ModelDef.identity) }

/-- The error is a duplicate-registration error whose kind and key match an
entry present in the collector. -/
def errNamesDupB (c : Collector) : MergeErr → Bool
  | .dupAdapter n => (assocGet c.adapters n).isSome
  | .dupConnection n =>
    (match c.connections with
     | some cs => (assocGet cs n).isSome
     | none => false)
  | .dupModel i => (assocGet c.models i).isSome
  | .typeError => false

section AssocLemmas

variable {κ α : Type} [DecidableEq κ]

theorem assocGet_none_iff (m : List (κ × α)) (k : κ) :
    assocGet m k = none ↔ k ∉ m.map Prod.fst := by
  induction m with
  | nil => simp [assocGet]
  | cons p rest ih =>
    obtain ⟨k', v⟩ := p
    by_cases h : k' = k
    · subst h
      simp [assocGet]
    · simp [assocGet, h, Ne.symm h, ih]

theorem assocGet_isSome_iff (m : List (κ × α)) (k : κ) :
    (assocGet m k).isSome = true ↔ k ∈ m.map Prod.fst := by
  rw [← Option.ne_none_iff_isSome, not_iff_comm, assocGet_none_iff]

theorem assocGet_append_left {m1 : List (κ × α)} {k : κ} {v : α} (m2 : List (κ × α))
    (h : assocGet m1 k = some v) : assocGet (m1 ++ m2) k = some v := by
  induction m1 with
  | nil => simp [assocGet] at h
  | cons p rest ih =>
    obtain ⟨k', v'⟩ := p
    by_cases hk : k' = k <;> simp_all [assocGet, hk]

theorem assocGet_append_right {m1 : List (κ × α)} {k : κ} (m2 : List (κ × α))
    (h : assocGet m1 k = none) : assocGet (m1 ++ m2) k = assocGet m2 k := by
  induction m1 with
  | nil => simp
  | cons p rest ih =>
    obtain ⟨k', v'⟩ := p
    by_cases hk : k' = k <;> simp_all [assocGet, hk]

theorem assocGet_mem {m : List (κ × α)} {k : κ} {v : α}
    (h : assocGet m k = some v) : (k, v) ∈ m := by
  induction m with
  | nil => simp [assocGet] at h
  | cons p rest ih =>
    obtain ⟨k', v'⟩ := p
    by_cases hk : k' = k
    · subst hk
      simp [assocGet] at h
      simp [h]
    · simp [assocGet, hk] at h
      exact List.mem_cons_of_mem _ (ih h)

theorem assocSet_of_none {m : List (κ × α)} {k : κ} (v : α)
    (h : assocGet m k = none) : assocSet m k v = m ++ [(k, v)] := by
  simp [assocSet, h]

theorem entrySet_fst (k : κ) (v : α) (p : κ × α) : (entrySet k v p).1 = p.1 := by
  unfold entrySet
  split
  · rename_i h
    exact h.symm
  · rfl

theorem entrySet_of_eq {k : κ} (v : α) {p : κ × α} (h : p.1 = k) :
    entrySet k v p = (k, v) := by
  unfold entrySet
  rw [if_pos h]

theorem entrySet_of_ne {k : κ} (v : α) {p : κ × α} (h : ¬p.1 = k) :
    entrySet k v p = p := by
  unfold entrySet
  rw [if_neg h]

theorem assocGet_map_overwrite {m : List (κ × α)} {k k' : κ} (v : α) (h : k' ≠ k) :
    assocGet (m.map (entrySet k v)) k' = assocGet m k' := by
  induction m with
  | nil => rfl
  | cons p rest ih =>
    obtain ⟨k0, v0⟩ := p
    by_cases hk : k0 = k
    · have hn : ¬k0 = k' := by
        rw [hk]
        exact Ne.symm h
      rw [List.map_cons, entrySet_of_eq v hk]
      simp only [assocGet]
      rw [if_neg (Ne.symm h), if_neg hn, ih]
    · rw [List.map_cons, entrySet_of_ne v hk]
      simp only [assocGet]
      by_cases h2 : k0 = k'
      · rw [if_pos h2, if_pos h2]
      · rw [if_neg h2, if_neg h2, ih]

theorem assocGet_assocSet_ne {m : List (κ × α)} {k k' : κ} (v : α)
    (h : k' ≠ k) : assocGet (assocSet m k v) k' = assocGet m k' := by
  unfold assocSet
  split
  · exact assocGet_map_overwrite v h
  · rcases h2 : assocGet m k' with _ | v'
    · rw [assocGet_append_right _ h2]
      simp [assocGet, Ne.symm h]
    · exact assocGet_append_left _ h2

theorem assocGet_map_overwrite_self (m : List (κ × α)) (k : κ) (v : α)
    (h : (assocGet m k).isSome = true) :
    assocGet (m.map (entrySet k v)) k = some v := by
  induction m with
  | nil => simp [assocGet] at h
  | cons p rest ih =>
    obtain ⟨k0, v0⟩ := p
    by_cases hk : k0 = k
    · rw [List.map_cons, entrySet_of_eq v hk]
      simp [assocGet]
    · rw [List.map_cons, entrySet_of_ne v hk]
      simp only [assocGet] at h ⊢
      rw [if_neg hk] at h
      rw [if_neg hk]
      exact ih h

theorem assocGet_assocSet_self (m : List (κ × α)) (k : κ) (v : α) :
    assocGet (assocSet m k v) k = some v := by
  unfold assocSet
  split
  · exact assocGet_map_overwrite_self m k v (by assumption)
  · rename_i h
    have h0 : assocGet m k = none := by
      rcases hh : assocGet m k with _ | v'
      · rfl
      · simp [hh] at h
    rw [assocGet_append_right _ h0]
    simp [assocGet]

theorem assocSet_map_fst_of_some {m : List (κ × α)} {k : κ} (v : α)
    (h : (assocGet m k).isSome = true) :
    (assocSet m k v).map Prod.fst = m.map Prod.fst := by
  simp only [assocSet, if_pos h, List.map_map]
  apply List.map_congr_left
  intro p _
  simp [Function.comp, entrySet_fst]

theorem assocSet_map_fst_of_none {m : List (κ × α)} {k : κ} (v : α)
    (h : assocGet m k = none) :
    (assocSet m k v).map Prod.fst = m.map Prod.fst ++ [k] := by
  rw [assocSet_of_none v h]
  simp

end AssocLemmas

section MergeLemmas

theorem objGet_of_none {m : List (String × JSValue)} {k : String}
    (h : assocGet m k = none) : objGet m k = .undefined := by
  simp [objGet, h]

theorem objGet_truthy_isSome {m : List (String × JSValue)} {k : String}
    (h : (objGet m k).truthy = true) : (assocGet m k).isSome = true := by
  rcases hh : assocGet m k with _ | v
  · rw [objGet_of_none hh] at h
    simp [JSValue.truthy] at h
  · rfl

theorem valuesTruthy_get {m : List (String × JSValue)} {k : String} {v : JSValue}
    (hm : valuesTruthy m = true) (h : assocGet m k = some v) : v.truthy = true := by
  have hmem := assocGet_mem h
  rw [valuesTruthy, List.all_eq_true] at hm
  exact hm _ hmem

theorem valuesTruthy_objGet {m : List (String × JSValue)} {k : String}
    (hm : valuesTruthy m = true) (h : (assocGet m k).isSome = true) :
    (objGet m k).truthy = true := by
  rcases hh : assocGet m k with _ | v
  · rw [hh] at h
    simp at h
  · rw [objGet, hh]
    exact valuesTruthy_get hm hh

theorem valuesTruthy_assocSet {m : List (String × JSValue)} {k : String} {v : JSValue}
    (hm : valuesTruthy m = true) (hv : v.truthy = true) :
    valuesTruthy (assocSet m k v) = true := by
  unfold assocSet
  split
  · rw [valuesTruthy, List.all_eq_true] at hm ⊢
    intro p hp
    rcases List.mem_map.mp hp with ⟨q, hq, rfl⟩
    unfold entrySet
    split
    · exact hv
    · exact hm q hq
  · rw [valuesTruthy, List.all_eq_true] at hm ⊢
    intro p hp
    rcases List.mem_append.mp hp with hp | hp
    · exact hm p hp
    · have : p = (k, v) := by simpa using hp
      rw [this]
      exact hv

theorem collectInto_fresh {ε : Type} (mkErr : String → ε) (frag : List (String × JSValue)) :
    ∀ coll, (frag.map Prod.fst).Nodup →
    (∀ k ∈ frag.map Prod.fst, assocGet coll k = none) →
    collectInto mkErr coll frag = (coll ++ frag, none) := by
  induction frag with
  | nil =>
    intro coll _ _
    simp [collectInto]
  | cons p rest ih =>
    intro coll hnd hfresh
    obtain ⟨name, v⟩ := p
    have hn : assocGet coll name = none := hfresh name (by simp)
    have hcond : (objGet coll name).truthy = false := by
      rw [objGet_of_none hn]
      rfl
    simp only [collectInto]
    rw [if_neg (by simp [hcond]), assocSet_of_none v hn]
    have hnd' : (rest.map Prod.fst).Nodup := by
      simpa using hnd.of_cons
    have hname : name ∉ rest.map Prod.fst := by
      have := hnd
      simp only [List.map_cons] at this
      exact (List.nodup_cons.mp this).1
    have hfresh' : ∀ k ∈ rest.map Prod.fst, assocGet (coll ++ [(name, v)]) k = none := by
      intro k hk
      have hne : name ≠ k := fun hh => hname (hh ▸ hk)
      rw [assocGet_append_right _ (hfresh k (by simp [hk]))]
      simp [assocGet, hne]
    rw [ih (coll ++ [(name, v)]) hnd' hfresh']
    simp

theorem collectInto_err {ε : Type} (mkErr : String → ε) (frag : List (String × JSValue)) :
    ∀ coll coll' e, (frag.map Prod.fst).Nodup →
    collectInto mkErr coll frag = (coll', some e) →
    ∃ n, n ∈ frag.map Prod.fst ∧ e = mkErr n ∧ (objGet coll n).truthy = true := by
  induction frag with
  | nil =>
    intro coll coll' e _ h
    simp [collectInto] at h
  | cons p rest ih =>
    intro coll coll' e hnd h
    obtain ⟨name, v⟩ := p
    by_cases hc : (objGet coll name).truthy = true
    · simp only [collectInto] at h
      rw [if_pos hc] at h
      refine ⟨name, by simp, ?_, hc⟩
      cases h
      rfl
    · simp only [collectInto] at h
      rw [if_neg hc] at h
      have hnd' : (rest.map Prod.fst).Nodup := by
        simp only [List.map_cons] at hnd
        exact (List.nodup_cons.mp hnd).2
      have hname : name ∉ rest.map Prod.fst := by
        simp only [List.map_cons] at hnd
        exact (List.nodup_cons.mp hnd).1
      rcases ih (assocSet coll name v) coll' e hnd' h with ⟨n, hmem, he, ht⟩
      have hne : n ≠ name := fun hh => hname (hh ▸ hmem)
      refine ⟨n, by simp [hmem], he, ?_⟩
      rw [objGet, assocGet_assocSet_ne v hne] at ht
      exact ht

theorem collectInto_hits {ε : Type} (mkErr : String → ε) (frag : List (String × JSValue)) :
    ∀ coll, (∃ k, k ∈ frag.map Prod.fst ∧ (objGet coll k).truthy = true) →
    ((collectInto mkErr coll frag).2).isSome = true := by
  induction frag with
  | nil =>
    intro coll h
    rcases h with ⟨k, hk, _⟩
    simp at hk
  | cons p rest ih =>
    intro coll h
    obtain ⟨name, v⟩ := p
    by_cases hc : (objGet coll name).truthy = true
    · simp only [collectInto]
      rw [if_pos hc]
      rfl
    · simp only [collectInto]
      rw [if_neg hc]
      rcases h with ⟨k, hk, ht⟩
      have hkr : k ∈ rest.map Prod.fst := by
        rw [List.map_cons] at hk
        rcases List.mem_cons.mp hk with h1 | h2
        · rw [h1] at ht
          exact absurd ht hc
        · exact h2
      apply ih
      refine ⟨k, hkr, ?_⟩
      have hne : k ≠ name := by
        intro hh
        rw [hh] at ht
        exact hc ht
      rw [objGet, assocGet_assocSet_ne v hne]
      exact ht

theorem collectInto_preserves {ε : Type} (mkErr : String → ε) (frag : List (String × JSValue)) :
    ∀ coll k v, assocGet coll k = some v → v.truthy = true →
    assocGet (collectInto mkErr coll frag).1 k = some v := by
  induction frag with
  | nil =>
    intro coll k v h _
    simpa [collectInto] using h
  | cons p rest ih =>
    intro coll k v h hv
    obtain ⟨name, vf⟩ := p
    by_cases hc : (objGet coll name).truthy = true
    · simp only [collectInto]
      rw [if_pos hc]
      exact h
    · simp only [collectInto]
      rw [if_neg hc]
      apply ih
      · have hne : k ≠ name := by
          intro hh
          rw [← hh, objGet, h] at hc
          exact hc hv
        rw [assocGet_assocSet_ne vf hne]
        exact h
      · exact hv

theorem collectInto_truthy {ε : Type} (mkErr : String → ε) (frag : List (String × JSValue)) :
    ∀ coll, valuesTruthy coll = true → valuesTruthy frag = true →
    valuesTruthy (collectInto mkErr coll frag).1 = true := by
  induction frag with
  | nil =>
    intro coll hc _
    simpa [collectInto] using hc
  | cons p rest ih =>
    intro coll hc hf
    obtain ⟨name, v⟩ := p
    have hf2 : v.truthy = true ∧ valuesTruthy rest = true := by
      rw [valuesTruthy, List.all_cons, Bool.and_eq_true] at hf
      exact hf
    by_cases hcond : (objGet coll name).truthy = true
    · simp only [collectInto]
      rw [if_pos hcond]
      exact hc
    · simp only [collectInto]
      rw [if_neg hcond]
      exact ih _ (valuesTruthy_assocSet hc hf2.1) hf2.2

theorem mergeModels_fresh (ms : List ModelDef) :
    ∀ coll, (ms.map ModelDef.identity).Nodup →
    (∀ id ∈ ms.map ModelDef.identity, assocGet coll id = none) →
    mergeModels coll ms = (coll ++ ms.map (fun m => (m.identity, m)), none) := by
  induction ms with
  | nil =>
    intro coll _ _
    simp [mergeModels]
  | cons m rest ih =>
    intro coll hnd hfresh
    have hn : assocGet coll m.identity = none := hfresh m.identity (by simp)
    simp only [mergeModels]
    rw [if_neg (by simp [hn]), assocSet_of_none m hn]
    have hnd' : (rest.map ModelDef.identity).Nodup := by
      simp only [List.map_cons] at hnd
      exact (List.nodup_cons.mp hnd).2
    have hid : m.identity ∉ rest.map ModelDef.identity := by
      simp only [List.map_cons] at hnd
      exact (List.nodup_cons.mp hnd).1
    have hfresh' : ∀ id ∈ rest.map ModelDef.identity,
        assocGet (coll ++ [(m.identity, m)]) id = none := by
      intro id hk
      have hne : m.identity ≠ id := fun hh => hid (hh ▸ hk)
      rw [assocGet_append_right _ (hfresh id (by simp [hk]))]
      simp [assocGet, hne]
    rw [ih (coll ++ [(m.identity, m)]) hnd' hfresh']
    simp

theorem mergeModels_ok (ms : List ModelDef) :
    ∀ coll coll', mergeModels coll ms = (coll', none) →
    coll' = coll ++ ms.map (fun m => (m.identity, m)) ∧
    ((coll.map Prod.fst).Nodup → (coll'.map Prod.fst).Nodup) := by
  induction ms with
  | nil =>
    intro coll coll' h
    simp only [mergeModels] at h
    cases h
    simp
  | cons m rest ih =>
    intro coll coll' h
    by_cases hs : (assocGet coll m.identity).isSome = true
    · simp only [mergeModels] at h
      rw [if_pos hs] at h
      cases h
    · simp only [mergeModels] at h
      rw [if_neg hs] at h
      have hn : assocGet coll m.identity = none := by
        rcases hh : assocGet coll m.identity with _ | v
        · rfl
        · rw [hh] at hs
          simp at hs
      rw [assocSet_of_none m hn] at h
      rcases ih _ _ h with ⟨heq, hnd⟩
      constructor
      · rw [heq]
        simp
      · intro hcoll
        apply hnd
        rw [List.map_append, List.nodup_append]
        refine ⟨hcoll, by simp, ?_⟩
        intro a ha
        simp only [List.map_cons, List.map_nil, List.mem_singleton] at *
        intro hcon
        rw [hcon] at ha
        rw [assocGet_none_iff] at hn
        exact hn ha

theorem mergeModels_err (ms : List ModelDef) :
    ∀ coll coll' e, (ms.map ModelDef.identity).Nodup →
    mergeModels coll ms = (coll', some e) →
    ∃ i, i ∈ ms.map ModelDef.identity ∧ e = .dupModel i ∧
      (assocGet coll i).isSome = true := by
  induction ms with
  | nil =>
    intro coll coll' e _ h
    simp [mergeModels] at h
  | cons m rest ih =>
    intro coll coll' e hnd h
    by_cases hs : (assocGet coll m.identity).isSome = true
    · simp only [mergeModels] at h
      rw [if_pos hs] at h
      refine ⟨m.identity, by simp, ?_, hs⟩
      cases h
      rfl
    · simp only [mergeModels] at h
      rw [if_neg hs] at h
      have hnd' : (rest.map ModelDef.identity).Nodup := by
        simp only [List.map_cons] at hnd
        exact (List.nodup_cons.mp hnd).2
      have hid : m.identity ∉ rest.map ModelDef.identity := by
        simp only [List.map_cons] at hnd
        exact (List.nodup_cons.mp hnd).1
      rcases ih _ _ _ hnd' h with ⟨i, hmem, he, hi⟩
      have hne : i ≠ m.identity := fun hh => hid (hh ▸ hmem)
      refine ⟨i, by simp [hmem], he, ?_⟩
      rw [assocGet_assocSet_ne m hne] at hi
      exact hi

theorem mergeModels_hits (ms : List ModelDef) :
    ∀ coll, (∃ i, i ∈ ms.map ModelDef.identity ∧ (assocGet coll i).isSome = true) →
    ((mergeModels coll ms).2).isSome = true := by
  induction ms with
  | nil =>
    intro coll h
    rcases h with ⟨i, hi, _⟩
    simp at hi
  | cons m rest ih =>
    intro coll h
    by_cases hs : (assocGet coll m.identity).isSome = true
    · simp only [mergeModels]
      rw [if_pos hs]
      rfl
    · simp only [mergeModels]
      rw [if_neg hs]
      rcases h with ⟨i, hi, ht⟩
      have hir : i ∈ rest.map ModelDef.identity := by
        rw [List.map_cons] at hi
        rcases List.mem_cons.mp hi with h1 | h2
        · exact absurd (h1 ▸ ht) hs
        · exact h2
      apply ih
      refine ⟨i, hir, ?_⟩
      have hne : i ≠ m.identity := by
        intro hh
        rw [hh] at ht
        exact hs ht
      rw [assocGet_assocSet_ne m hne]
      exact ht

theorem mergeModels_preserves (ms : List ModelDef) :
    ∀ coll k v, assocGet coll k = some v →
    assocGet (mergeModels coll ms).1 k = some v := by
  induction ms with
  | nil =>
    intro coll k v h
    simpa [mergeModels] using h
  | cons m rest ih =>
    intro coll k v h
    by_cases hs : (assocGet coll m.identity).isSome = true
    · simp only [mergeModels]
      rw [if_pos hs]
      exact h
    · simp only [mergeModels]
      rw [if_neg hs]
      apply ih
      have hne : k ≠ m.identity := by
        intro hh
        rw [← hh, h] at hs
        simp at hs
      rw [assocGet_assocSet_ne m hne]
      exact h

end MergeLemmas

section StageLemmas

theorem mergeConnections_some (cs : List (String × JSValue)) (frag : List (String × JSValue)) :
    mergeConnections (some cs) frag =
      (some (collectInto MergeErr.dupConnection cs frag).1,
       (collectInto MergeErr.dupConnection cs frag).2) := by
  cases frag <;> rfl

theorem dogwaterModels_of_err (scope : Nat) (f : Fragment) (st : PState) (e : MergeErr)
    (h : (mergeModels st.collector.models f.models).2 = some e) :
    dogwaterModels scope f st =
      ({ st with collector :=
          { st.collector with models := (mergeModels st.collector.models f.models).1 } },
       some e) := by
  simp [dogwaterModels, h]

theorem dogwaterModels_of_ok (scope : Nat) (f : Fragment) (st : PState)
    (h : (mergeModels st.collector.models f.models).2 = none) :
    dogwaterModels scope f st =
      ({ st with
          collector :=
            { st.collector with models := (mergeModels st.collector.models f.models).1 },
          scopes := scopeAppend st.scopes scope (f.models.map ModelDef.identity) },
       none) := by
  simp [dogwaterModels, h]

theorem dogwaterConnections_of_err (scope : Nat) (f : Fragment) (st : PState) (e : MergeErr)
    (h : (mergeConnections st.collector.connections f.connections).2 = some e) :
    dogwaterConnections scope f st =
      ({ st with collector :=
          { st.collector with
            connections := (mergeConnections st.collector.connections f.connections).1 } },
       some e) := by
  simp [dogwaterConnections, h]

theorem dogwaterConnections_of_ok (scope : Nat) (f : Fragment) (st : PState)
    (h : (mergeConnections st.collector.connections f.connections).2 = none) :
    dogwaterConnections scope f st =
      dogwaterModels scope f
        { st with collector :=
            { st.collector with
              connections := (mergeConnections st.collector.connections f.connections).1 } } := by
  simp [dogwaterConnections, h]

theorem dogwaterAdapters_of_err (scope : Nat) (f : Fragment) (st : PState) (e : MergeErr)
    (h : (mergeAdapters st.collector.adapters f.adapters).2 = some e) :
    dogwaterAdapters scope f st =
      ({ st with collector :=
          { st.collector with adapters := (mergeAdapters st.collector.adapters f.adapters).1 } },
       some e) := by
  simp [dogwaterAdapters, h]

theorem dogwaterAdapters_of_ok (scope : Nat) (f : Fragment) (st : PState)
    (h : (mergeAdapters st.collector.adapters f.adapters).2 = none) :
    dogwaterAdapters scope f st =
      dogwaterConnections scope f
        { st with collector :=
            { st.collector with adapters := (mergeAdapters st.collector.adapters f.adapters).1 } } := by
  simp [dogwaterAdapters, h]

end StageLemmas

section DogwaterLemmas

theorem dogwater_fresh (scope : Nat) (input : DogwaterInput) (st : PState)
    (cs : List (String × JSValue))
    (hc : st.collector.connections = some cs)
    (hA : ((normalize input).adapters.map Prod.fst).Nodup)
    (hAf : ∀ k ∈ (normalize input).adapters.map Prod.fst,
      assocGet st.collector.adapters k = none)
    (hC : ((normalize input).connections.map Prod.fst).Nodup)
    (hCf : ∀ k ∈ (normalize input).connections.map Prod.fst, assocGet cs k = none)
    (hM : ((normalize input).models.map ModelDef.identity).Nodup)
    (hMf : ∀ id ∈ (normalize input).models.map ModelDef.identity,
      assocGet st.collector.models id = none) :
    dogwater scope input st = (freshStep st scope (normalize input) cs, none) := by
  have hfA : mergeAdapters st.collector.adapters (normalize input).adapters =
      (st.collector.adapters ++ (normalize input).adapters, none) :=
    collectInto_fresh _ _ _ hA hAf
  have hfC : mergeConnections (some cs) (normalize input).connections =
      (some (cs ++ (normalize input).connections), none) := by
    rw [mergeConnections_some, collectInto_fresh _ _ _ hC hCf]
  have hfM : mergeModels st.collector.models (normalize input).models =
      (st.collector.models ++ (normalize input).models.map (fun m => (m.identity, m)),
       none) :=
    mergeModels_fresh _ _ hM hMf
  simp [dogwater, dogwaterAdapters, dogwaterConnections, dogwaterModels, freshStep,
    mergeAdapters, hc, hfA, hfC, hfM, collectInto_fresh _ _ _ hA hAf]

theorem dogwater_ok (scope : Nat) (input : DogwaterInput) (st st' : PState)
    (h : dogwater scope input st = (st', none)) :
    st'.collector.models = st.collector.models ++
      (normalize input).models.map (fun m => (m.identity, m)) ∧
    ((st.collector.models.map Prod.fst).Nodup →
      (st'.collector.models.map Prod.fst).Nodup) ∧
    st'.scopes = scopeAppend st.scopes scope
      ((normalize input).models.map ModelDef.identity) := by
  rcases hA : mergeAdapters st.collector.adapters (normalize input).adapters with ⟨aa, ae⟩
  cases ae with
  | some e =>
    simp [dogwater, dogwaterAdapters, hA] at h
  | none =>
    rcases hC : mergeConnections st.collector.connections (normalize input).connections
        with ⟨cc, ce⟩
    cases ce with
    | some e =>
      simp [dogwater, dogwaterAdapters, dogwaterConnections, hA, hC] at h
    | none =>
      rcases hM : mergeModels st.collector.models (normalize input).models with ⟨mm, me⟩
      cases me with
      | some e =>
        simp [dogwater, dogwaterAdapters, dogwaterConnections, dogwaterModels,
          hA, hC, hM] at h
      | none =>
        rcases mergeModels_ok _ _ _ hM with ⟨heq, hnd⟩
        simp [dogwater, dogwaterAdapters, dogwaterConnections, dogwaterModels,
          hA, hC, hM] at h
        rw [← h]
        exact ⟨heq, fun hh => hnd hh, rfl⟩

theorem normalize_toInput (f : Fragment) : normalize f.toInput = f := rfl

theorem collectInto_err_shape {ε : Type} (mkErr : String → ε)
    (frag : List (String × JSValue)) :
    ∀ coll coll' e, collectInto mkErr coll frag = (coll', some e) → ∃ n, e = mkErr n := by
  induction frag with
  | nil =>
    intro coll coll' e h
    simp [collectInto] at h
  | cons p rest ih =>
    intro coll coll' e h
    obtain ⟨name, v⟩ := p
    by_cases hc : (objGet coll name).truthy = true
    · simp only [collectInto] at h
      rw [if_pos hc] at h
      cases h
      exact ⟨name, rfl⟩
    · simp only [collectInto] at h
      rw [if_neg hc] at h
      exact ih _ _ _ h

theorem mergeModels_err_shape (ms : List ModelDef) :
    ∀ coll coll' e, mergeModels coll ms = (coll', some e) → ∃ i, e = .dupModel i := by
  induction ms with
  | nil =>
    intro coll coll' e h
    simp [mergeModels] at h
  | cons m rest ih =>
    intro coll coll' e h
    by_cases hs : (assocGet coll m.identity).isSome = true
    · simp only [mergeModels] at h
      rw [if_pos hs] at h
      cases h
      exact ⟨m.identity, rfl⟩
    · simp only [mergeModels] at h
      rw [if_neg hs] at h
      exact ih _ _ _ h

theorem dogwater_unchanged (scope : Nat) (input : DogwaterInput) (st : PState) :
    ((dogwater scope input st).1).collector.teardownOnStop = st.collector.teardownOnStop ∧
    ((dogwater scope input st).1).collector.defaults = st.collector.defaults ∧
    ((dogwater scope input st).1).collector.datastores = st.collector.datastores := by
  rcases hA : mergeAdapters st.collector.adapters (normalize input).adapters with ⟨aa, ae⟩
  rcases hC : mergeConnections st.collector.connections (normalize input).connections
    with ⟨cc, ce⟩
  rcases hM : mergeModels st.collector.models (normalize input).models with ⟨mm, me⟩
  cases ae <;> cases ce <;> cases me <;>
    simp [dogwater, dogwaterAdapters, dogwaterConnections, dogwaterModels, hA, hC, hM]

theorem dogwater_scopes_cases (scope : Nat) (input : DogwaterInput) (st : PState) :
    ((dogwater scope input st).1).scopes = st.scopes ∨
    ((dogwater scope input st).1).scopes =
      scopeAppend st.scopes scope ((normalize input).models.map ModelDef.identity) := by
  rcases hA : mergeAdapters st.collector.adapters (normalize input).adapters with ⟨aa, ae⟩
  rcases hC : mergeConnections st.collector.connections (normalize input).connections
    with ⟨cc, ce⟩
  rcases hM : mergeModels st.collector.models (normalize input).models with ⟨mm, me⟩
  cases ae with
  | some e =>
    exact Or.inl (by simp [dogwater, dogwaterAdapters, hA])
  | none =>
    cases ce with
    | some e =>
      exact Or.inl (by simp [dogwater, dogwaterAdapters, dogwaterConnections, hA, hC])
    | none =>
      cases me with
      | some e =>
        exact Or.inl (by
          simp [dogwater, dogwaterAdapters, dogwaterConnections, dogwaterModels, hA, hC, hM])
      | none =>
        exact Or.inr (by
          simp [dogwater, dogwaterAdapters, dogwaterConnections, dogwaterModels, hA, hC, hM])

theorem dogwater_models_preserves (scope : Nat) (input : DogwaterInput) (st : PState)
    (k : String) (v : ModelDef) (h : assocGet st.collector.models k = some v) :
    assocGet ((dogwater scope input st).1).collector.models k = some v := by
  rcases hA : mergeAdapters st.collector.adapters (normalize input).adapters with ⟨aa, ae⟩
  rcases hC : mergeConnections st.collector.connections (normalize input).connections
    with ⟨cc, ce⟩
  rcases hM : mergeModels st.collector.models (normalize input).models with ⟨mm, me⟩
  have hpres : assocGet mm k = some v := by
    have := mergeModels_preserves (normalize input).models st.collector.models k v h
    rw [hM] at this
    exact this
  cases ae <;> cases ce <;> cases me <;>
    simp [dogwater, dogwaterAdapters, dogwaterConnections, dogwaterModels,
      hA, hC, hM, h, hpres]

theorem dogwater_adapters_preserves (scope : Nat) (input : DogwaterInput) (st : PState)
    (k : String) (v : JSValue) (h : assocGet st.collector.adapters k = some v)
    (hv : v.truthy = true) :
    assocGet ((dogwater scope input st).1).collector.adapters k = some v := by
  rcases hA : mergeAdapters st.collector.adapters (normalize input).adapters with ⟨aa, ae⟩
  rcases hC : mergeConnections st.collector.connections (normalize input).connections
    with ⟨cc, ce⟩
  rcases hM : mergeModels st.collector.models (normalize input).models with ⟨mm, me⟩
  have hpres : assocGet aa k = some v := by
    have := collectInto_preserves MergeErr.dupAdapter (normalize input).adapters
      st.collector.adapters k v h hv
    rw [show collectInto MergeErr.dupAdapter st.collector.adapters (normalize input).adapters
        = (aa, ae) from hA] at this
    exact this
  cases ae <;> cases ce <;> cases me <;>
    simp [dogwater, dogwaterAdapters, dogwaterConnections, dogwaterModels,
      hA, hC, hM, hpres]

theorem dogwater_connections_preserves (scope : Nat) (input : DogwaterInput) (st : PState)
    (cs : List (String × JSValue)) (hc : st.collector.connections = some cs) :
    ∃ cs2, ((dogwater scope input st).1).collector.connections = some cs2 ∧
      ∀ k v, assocGet cs k = some v → v.truthy = true → assocGet cs2 k = some v := by
  rcases hA : mergeAdapters st.collector.adapters (normalize input).adapters with ⟨aa, ae⟩
  rcases hM : mergeModels st.collector.models (normalize input).models with ⟨mm, me⟩
  have hC : mergeConnections st.collector.connections (normalize input).connections =
      (some (collectInto MergeErr.dupConnection cs (normalize input).connections).1,
       (collectInto MergeErr.dupConnection cs (normalize input).connections).2) := by
    rw [hc, mergeConnections_some]
  cases ae with
  | some e =>
    refine ⟨cs, ?_, fun k v hk _ => hk⟩
    simp [dogwater, dogwaterAdapters, hA, hc]
  | none =>
    refine ⟨(collectInto MergeErr.dupConnection cs (normalize input).connections).1, ?_, ?_⟩
    · rcases hce : (collectInto MergeErr.dupConnection cs (normalize input).connections).2
        with _ | e2
      · cases me <;>
          simp [dogwater, dogwaterAdapters, dogwaterConnections, dogwaterModels,
            hA, hC, hM, hce]
      · simp [dogwater, dogwaterAdapters, dogwaterConnections, hA, hC, hce]
    · intro k v hk hv
      exact collectInto_preserves _ _ _ _ _ hk hv

theorem dogwater_no_typeError (scope : Nat) (input : DogwaterInput) (st : PState)
    (cs : List (String × JSValue)) (hc : st.collector.connections = some cs) :
    (dogwater scope input st).2 ≠ some .typeError := by
  rcases hA : mergeAdapters st.collector.adapters (normalize input).adapters with ⟨aa, ae⟩
  rcases hM : mergeModels st.collector.models (normalize input).models with ⟨mm, me⟩
  have hC : mergeConnections st.collector.connections (normalize input).connections =
      (some (collectInto MergeErr.dupConnection cs (normalize input).connections).1,
       (collectInto MergeErr.dupConnection cs (normalize input).connections).2) := by
    rw [hc, mergeConnections_some]
  cases ae with
  | some e =>
    rcases collectInto_err_shape MergeErr.dupAdapter _ _ _ _ hA with ⟨n, rfl⟩
    simp [dogwater, dogwaterAdapters, hA]
  | none =>
    rcases hce : (collectInto MergeErr.dupConnection cs (normalize input).connections).2
      with _ | e2
    · cases me with
      | some e3 =>
        rcases mergeModels_err_shape _ _ _ _ hM with ⟨i, rfl⟩
        simp [dogwater, dogwaterAdapters, dogwaterConnections, dogwaterModels,
          hA, hC, hM, hce]
      | none =>
        simp [dogwater, dogwaterAdapters, dogwaterConnections, dogwaterModels,
          hA, hC, hM, hce]
    · rcases collectInto_err_shape MergeErr.dupConnection _ _ _ _
        (by rw [← hce] : collectInto MergeErr.dupConnection cs (normalize input).connections
          = ((collectInto MergeErr.dupConnection cs (normalize input).connections).1, some e2))
        with ⟨n, rfl⟩
      simp [dogwater, dogwaterAdapters, dogwaterConnections, hA, hC, hce]

theorem validB_parts {f : Fragment} (hv : f.validB = true) :
    valuesTruthy f.adapters = true ∧ valuesTruthy f.connections = true ∧
    (f.adapters.map Prod.fst).Nodup ∧ (f.connections.map Prod.fst).Nodup ∧
    (f.models.map ModelDef.identity).Nodup := by
  rw [Fragment.validB] at hv
  simp only [Bool.and_eq_true, decide_eq_true_eq] at hv
  tauto

theorem collectorInvB_parts {c : Collector} (h : CollectorInvB c = true) :
    valuesTruthy c.adapters = true ∧
    ∃ cs, c.connections = some cs ∧ valuesTruthy cs = true := by
  rw [CollectorInvB] at h
  rcases hcc : c.connections with _ | cs
  · rw [hcc] at h
    simp at h
  · rw [hcc] at h
    simp only [Bool.and_eq_true] at h
    exact ⟨h.1, cs, rfl, h.2⟩

theorem dogwater_inv (scope : Nat) (f : Fragment) (st : PState)
    (hv : f.validB = true) (hinv : CollectorInvB st.collector = true) :
    CollectorInvB ((dogwater scope f.toInput st).1).collector = true := by
  rcases validB_parts hv with ⟨hva, hvc, _⟩
  rcases collectorInvB_parts hinv with ⟨hta, cs, hcc, htc⟩
  rcases hA : mergeAdapters st.collector.adapters (normalize f.toInput).adapters with ⟨aa, ae⟩
  rcases hM : mergeModels st.collector.models (normalize f.toInput).models with ⟨mm, me⟩
  have haa : valuesTruthy aa = true := by
    have := collectInto_truthy MergeErr.dupAdapter (normalize f.toInput).adapters
      st.collector.adapters hta hva
    rw [show collectInto MergeErr.dupAdapter st.collector.adapters
        (normalize f.toInput).adapters = (aa, ae) from hA] at this
    exact this
  have hC : mergeConnections st.collector.connections (normalize f.toInput).connections =
      (some (collectInto MergeErr.dupConnection cs (normalize f.toInput).connections).1,
       (collectInto MergeErr.dupConnection cs (normalize f.toInput).connections).2) := by
    rw [hcc, mergeConnections_some]
  have hccN : valuesTruthy
      (collectInto MergeErr.dupConnection cs (normalize f.toInput).connections).1 = true :=
    collectInto_truthy MergeErr.dupConnection _ cs htc hvc
  cases ae with
  | some e =>
    simp [CollectorInvB, dogwater, dogwaterAdapters, hA, hcc, haa, htc]
  | none =>
    rcases hce : (collectInto MergeErr.dupConnection cs (normalize f.toInput).connections).2
      with _ | e2
    · cases me <;>
        simp [CollectorInvB, dogwater, dogwaterAdapters, dogwaterConnections,
          dogwaterModels, hA, hC, hM, hce, haa, hccN]
    · simp [CollectorInvB, dogwater, dogwaterAdapters, dogwaterConnections,
        hA, hC, hce, haa, hccN]

theorem dogwater_hits (scope : Nat) (f : Fragment) (st : PState)
    (hinv : CollectorInvB st.collector = true)
    (hsh : sharesKeyB f st.collector = true) :
    ((dogwater scope f.toInput st).2).isSome = true := by
  rcases collectorInvB_parts hinv with ⟨hta, cs, hcc, htc⟩
  simp only [sharesKeyB, hcc, Bool.or_eq_true, List.any_eq_true] at hsh
  rcases hA : mergeAdapters st.collector.adapters (normalize f.toInput).adapters with ⟨aa, ae⟩
  rcases hM : mergeModels st.collector.models (normalize f.toInput).models with ⟨mm, me⟩
  have hC : mergeConnections st.collector.connections (normalize f.toInput).connections =
      (some (collectInto MergeErr.dupConnection cs (normalize f.toInput).connections).1,
       (collectInto MergeErr.dupConnection cs (normalize f.toInput).connections).2) := by
    rw [hcc, mergeConnections_some]
  rcases hsh with (hsh | hsh) | hsh
  · rcases hsh with ⟨p, hp, hs⟩
    have hit : ((mergeAdapters st.collector.adapters (normalize f.toInput).adapters).2).isSome
        = true :=
      collectInto_hits _ _ _ ⟨p.1, List.mem_map_of_mem _ hp, valuesTruthy_objGet hta hs⟩
    rw [hA] at hit
    cases ae with
    | none => simp at hit
    | some e => simp [dogwater, dogwaterAdapters, hA]
  · rcases hsh with ⟨p, hp, hs⟩
    cases ae with
    | some e => simp [dogwater, dogwaterAdapters, hA]
    | none =>
      have hit : ((collectInto MergeErr.dupConnection cs
          (normalize f.toInput).connections).2).isSome = true :=
        collectInto_hits _ _ _ ⟨p.1, List.mem_map_of_mem _ hp, valuesTruthy_objGet htc hs⟩
      rcases hce : (collectInto MergeErr.dupConnection cs
          (normalize f.toInput).connections).2 with _ | e2
      · rw [hce] at hit
        simp at hit
      · simp [dogwater, dogwaterAdapters, dogwaterConnections, hA, hC, hce]
  · rcases hsh with ⟨m, hm, hs⟩
    cases ae with
    | some e => simp [dogwater, dogwaterAdapters, hA]
    | none =>
      rcases hce : (collectInto MergeErr.dupConnection cs
          (normalize f.toInput).connections).2 with _ | e2
      · have hit : ((mergeModels st.collector.models (normalize f.toInput).models).2).isSome
            = true :=
          mergeModels_hits _ _ ⟨m.identity, List.mem_map_of_mem _ hm, hs⟩
        rw [hM] at hit
        cases me with
        | none => simp at hit
        | some e3 =>
          simp [dogwater, dogwaterAdapters, dogwaterConnections, dogwaterModels,
            hA, hC, hM, hce]
      · simp [dogwater, dogwaterAdapters, dogwaterConnections, hA, hC, hce]

theorem dogwater_err (scope : Nat) (f : Fragment) (st : PState) (e : MergeErr)
    (hv : f.validB = true) (hinv : CollectorInvB st.collector = true)
    (h : (dogwater scope f.toInput st).2 = some e) :
    errNamesDupB st.collector e = true := by
  rcases validB_parts hv with ⟨hva, hvc, hnda, hndc, hndm⟩
  rcases collectorInvB_parts hinv with ⟨hta, cs, hcc, htc⟩
  rcases hA : mergeAdapters st.collector.adapters (normalize f.toInput).adapters with ⟨aa, ae⟩
  rcases hM : mergeModels st.collector.models (normalize f.toInput).models with ⟨mm, me⟩
  have hC : mergeConnections st.collector.connections (normalize f.toInput).connections =
      (some (collectInto MergeErr.dupConnection cs (normalize f.toInput).connections).1,
       (collectInto MergeErr.dupConnection cs (normalize f.toInput).connections).2) := by
    rw [hcc, mergeConnections_some]
  cases ae with
  | some e1 =>
    simp [dogwater, dogwaterAdapters, hA] at h
    rcases collectInto_err MergeErr.dupAdapter _ _ _ _ hnda hA with ⟨n, _, he, ht⟩
    rw [← h, he]
    simp [errNamesDupB, objGet_truthy_isSome ht]
  | none =>
    rcases hce : (collectInto MergeErr.dupConnection cs
        (normalize f.toInput).connections).2 with _ | e2
    · cases me with
      | some e3 =>
        simp [dogwater, dogwaterAdapters, dogwaterConnections, dogwaterModels,
          hA, hC, hM, hce] at h
        rcases mergeModels_err _ _ _ _ hndm hM with ⟨i, _, he, ht⟩
        rw [← h, he]
        simp [errNamesDupB, ht]
      | none =>
        simp [dogwater, dogwaterAdapters, dogwaterConnections, dogwaterModels,
          hA, hC, hM, hce] at h
    · simp [dogwater, dogwaterAdapters, dogwaterConnections, hA, hC, hce] at h
      rcases collectInto_err MergeErr.dupConnection _ _ _ _ hndc
        (by rw [← hce] : collectInto MergeErr.dupConnection cs (normalize f.toInput).connections
          = ((collectInto MergeErr.dupConnection cs (normalize f.toInput).connections).1,
             some e2))
        with ⟨n, _, he, ht⟩
      rw [← h, he]
      simp [errNamesDupB, hcc, objGet_truthy_isSome ht]

theorem assocGet_scopeAppend_self (sc : List (Nat × List String)) (s : Nat)
    (ids : List String) :
    assocGet (scopeAppend sc s ids) s = some ((assocGet sc s).getD [] ++ ids) :=
  assocGet_assocSet_self sc s _

theorem assocGet_scopeAppend_ne (sc : List (Nat × List String)) {s s' : Nat}
    (ids : List String) (h : s' ≠ s) :
    assocGet (scopeAppend sc s ids) s' = assocGet sc s' :=
  assocGet_assocSet_ne _ h

theorem map_fst_modelPairs (ms : List ModelDef) :
    (ms.map fun m => (m.identity, m)).map Prod.fst = ms.map ModelDef.identity := by
  simp [List.map_map]

theorem splitOnDot_ne_nil (l : List Char) : splitOnDot l ≠ [] := by
  cases l with
  | nil =>
    intro h
    simp [splitOnDot] at h
  | cons c rest =>
    intro h
    simp only [splitOnDot] at h
    rcases hs : splitOnDot rest with _ | ⟨g, gs⟩ <;> rw [hs] at h
    · by_cases hc : c = '.' <;> simp [hc] at h
    · by_cases hc : c = '.' <;> simp [hc] at h

theorem semverSplit_MAJOR_str (version : String) :
    ∃ s, (semverSplit version).MAJOR = .str s := by
  unfold semverSplit jsIndex
  rcases h : ((splitOnDot version.data).map fun cs => String.mk cs)[0]? with _ | s
  · rcases hs : splitOnDot version.data with _ | ⟨g, gs⟩
    · exact absurd hs (splitOnDot_ne_nil _)
    · rw [hs] at h
      simp at h
  · exact ⟨s, by simp [h]⟩

/-- The guard at lines 40-41 compares the STRING major component against the
NUMBER 0 with strict equality, so it is false for every version string: the
`datastores` rename never happens. -/
theorem initialCollector_semver (version : String) :
    initialCollector (semverSplit version) =
      { adapters := [], connections := some [], datastores := none, models := [],
        defaults := [], teardownOnStop := none } := by
  rcases semverSplit_MAJOR_str version with ⟨s, hs⟩
  unfold initialCollector
  rw [hs]
  simp [jsStrictEq]

theorem runSeq_fresh (regs : List (Nat × DogwaterInput)) :
    ∀ (st : PState) (cs : List (String × JSValue)),
    st.collector.connections = some cs →
    (regs.flatMap fun r => ((normalize r.2).adapters.map Prod.fst)).Nodup →
    (∀ k ∈ regs.flatMap fun r => ((normalize r.2).adapters.map Prod.fst),
      assocGet st.collector.adapters k = none) →
    (regs.flatMap fun r => ((normalize r.2).connections.map Prod.fst)).Nodup →
    (∀ k ∈ regs.flatMap fun r => ((normalize r.2).connections.map Prod.fst),
      assocGet cs k = none) →
    (regs.flatMap fun r => ((normalize r.2).models.map ModelDef.identity)).Nodup →
    (∀ id ∈ regs.flatMap fun r => ((normalize r.2).models.map ModelDef.identity),
      assocGet st.collector.models id = none) →
    (runSeq regs st).2 = none ∧
    (runSeq regs st).1.collector.adapters =
      st.collector.adapters ++ (regs.flatMap fun r => (normalize r.2).adapters) ∧
    (runSeq regs st).1.collector.connections =
      some (cs ++ (regs.flatMap fun r => (normalize r.2).connections)) ∧
    (runSeq regs st).1.collector.models =
      st.collector.models ++
        (regs.flatMap fun r => ((normalize r.2).models.map fun m => (m.identity, m))) := by
  induction regs with
  | nil =>
    intro st cs hc _ _ _ _ _ _
    simp [runSeq, hc]
  | cons r rest ih =>
    intro st cs hc hA hAf hC hCf hM hMf
    obtain ⟨s0, cfg⟩ := r
    simp only [List.flatMap_cons] at hA hAf hC hCf hM hMf
    rw [List.nodup_append] at hA hC hM
    have hdog := dogwater_fresh s0 cfg st cs hc hA.1
      (fun k hk => hAf k (List.mem_append_left _ hk)) hC.1
      (fun k hk => hCf k (List.mem_append_left _ hk)) hM.1
      (fun id hid => hMf id (List.mem_append_left _ hid))
    have hstep : runSeq ((s0, cfg) :: rest) st =
        runSeq rest (freshStep st s0 (normalize cfg) cs) := by
      simp [runSeq, hdog]
    rw [hstep]
    have frA : ∀ k ∈ rest.flatMap fun r => ((normalize r.2).adapters.map Prod.fst),
        assocGet (freshStep st s0 (normalize cfg) cs).collector.adapters k = none := by
      intro k hk
      show assocGet (st.collector.adapters ++ (normalize cfg).adapters) k = none
      rw [assocGet_append_right _ (hAf k (List.mem_append_right _ hk))]
      rw [assocGet_none_iff]
      exact fun hkf => hA.2.2 hkf hk
    have frC : ∀ k ∈ rest.flatMap fun r => ((normalize r.2).connections.map Prod.fst),
        assocGet (cs ++ (normalize cfg).connections) k = none := by
      intro k hk
      rw [assocGet_append_right _ (hCf k (List.mem_append_right _ hk))]
      rw [assocGet_none_iff]
      exact fun hkf => hC.2.2 hkf hk
    have frM : ∀ id ∈ rest.flatMap fun r => ((normalize r.2).models.map ModelDef.identity),
        assocGet (freshStep st s0 (normalize cfg) cs).collector.models id = none := by
      intro id hid
      show assocGet (st.collector.models ++
        ((normalize cfg).models.map fun m => (m.identity, m))) id = none
      rw [assocGet_append_right _ (hMf id (List.mem_append_right _ hid))]
      rw [assocGet_none_iff, map_fst_modelPairs]
      exact fun hkf => hM.2.2 hkf hid
    rcases ih (freshStep st s0 (normalize cfg) cs) (cs ++ (normalize cfg).connections)
      rfl hA.2.1 frA hC.2.1 frC hM.2.1 frM with ⟨h1, h2, h3, h4⟩
    refine ⟨h1, ?_, ?_, ?_⟩
    · rw [h2]
      show st.collector.adapters ++ (normalize cfg).adapters ++ _ = _
      simp
    · rw [h3]
      simp
    · rw [h4]
      show st.collector.models ++ ((normalize cfg).models.map fun m => (m.identity, m)) ++ _ = _
      simp

theorem runSeq_ok (regs : List (Nat × DogwaterInput)) :
    ∀ st st', runSeq regs st = (st', none) →
    (st'.collector.models.map Prod.fst =
      st.collector.models.map Prod.fst ++
        (regs.flatMap fun r => ((normalize r.2).models.map ModelDef.identity))) ∧
    (∀ s, scopeModels st' s =
      scopeModels st s ++
        ((regs.filter fun r => r.1 == s).flatMap fun r =>
          ((normalize r.2).models.map ModelDef.identity))) ∧
    ((st.collector.models.map Prod.fst).Nodup →
     (∀ s, (scopeModels st s).Sublist (st.collector.models.map Prod.fst)) →
     ((st'.collector.models.map Prod.fst).Nodup ∧
      (∀ s, (scopeModels st' s).Sublist (st'.collector.models.map Prod.fst)))) := by
  induction regs with
  | nil =>
    intro st st' h
    simp only [runSeq, Prod.mk.injEq] at h
    rw [← h.1]
    exact ⟨by simp, fun s => by simp, fun a b => ⟨a, b⟩⟩
  | cons r rest ih =>
    intro st st' h
    obtain ⟨s0, cfg⟩ := r
    rcases hd : dogwater s0 cfg st with ⟨st1, e1⟩
    cases e1 with
    | some e =>
      simp [runSeq, hd] at h
    | none =>
      have hstep : runSeq ((s0, cfg) :: rest) st = runSeq rest st1 := by
        simp [runSeq, hd]
      rw [hstep] at h
      rcases dogwater_ok s0 cfg st st1 hd with ⟨hm, hnd, hsc⟩
      have hkeys : st1.collector.models.map Prod.fst =
          st.collector.models.map Prod.fst ++
            ((normalize cfg).models.map ModelDef.identity) := by
        rw [hm]
        simp [map_fst_modelPairs]
      rcases ih st1 st' h with ⟨ih1, ih2, ih3⟩
      refine ⟨?_, ?_, ?_⟩
      · rw [ih1, hkeys]
        simp [List.flatMap_cons, List.append_assoc]
      · intro s
        rw [ih2 s]
        by_cases hss : s0 = s
        · subst hss
          have hsm : scopeModels st1 s0 =
              scopeModels st s0 ++ ((normalize cfg).models.map ModelDef.identity) := by
            rw [scopeModels, hsc, assocGet_scopeAppend_self]
            rfl
          rw [hsm]
          simp [List.filter_cons, List.flatMap_cons, List.append_assoc]
        · have hsm : scopeModels st1 s = scopeModels st s := by
            rw [scopeModels, hsc, assocGet_scopeAppend_ne _ _ (Ne.symm hss)]
            rfl
          rw [hsm]
          have hbeq : ((s0, cfg).1 == s) = false := by
            simp [hss]
          simp [List.filter_cons, hbeq]
      · intro hnd0 hsub0
        apply ih3 (hnd hnd0)
        intro s
        by_cases hss : s0 = s
        · subst hss
          have hsm : scopeModels st1 s0 =
              scopeModels st s0 ++ ((normalize cfg).models.map ModelDef.identity) := by
            rw [scopeModels, hsc, assocGet_scopeAppend_self]
            rfl
          rw [hsm, hkeys]
          exact List.Sublist.append (hsub0 s0) (List.Sublist.refl _)
        · have hsm : scopeModels st1 s = scopeModels st s := by
            rw [scopeModels, hsc, assocGet_scopeAppend_ne _ _ (Ne.symm hss)]
            rfl
          rw [hsm, hkeys]
          exact (hsub0 s).trans (List.sublist_append_left _ _)

theorem pInit_inv (version : String) :
    CollectorInvB (pInit (semverSplit version)).collector = true := by
  simp [CollectorInvB, pInit, initialCollector_semver, valuesTruthy]

theorem register_sets_teardown (version : String) (scope : Nat) (opts : RegOptions)
    (b : Bool) (hb : opts.teardownOnStop = some b)
    (h : (register (semverSplit version) scope opts none).2 = none) :
    ((register (semverSplit version) scope opts none).1).collector.teardownOnStop
      = some b := by
  have h0 : (pInit (semverSplit version)).collector.teardownOnStop = none := by
    simp [pInit, initialCollector_semver]
  rcases hrd : mergeDefaults (pInit (semverSplit version)).collector.defaults
    (opts.defaults.getD []) with ⟨dd, de⟩
  cases de with
  | some e =>
    simp [register, hrd] at h
  | none =>
    simp only [register, Option.getD_none, hrd, hb, h0] at h ⊢
    rw [(dogwater_unchanged _ _ _).1]

theorem register_teardown_already (ver : Semver) (scope : Nat) (opts : RegOptions)
    (st : PState) (b0 b : Bool)
    (hst : st.collector.teardownOnStop = some b0)
    (hb : opts.teardownOnStop = some b)
    (hdef : (mergeDefaults st.collector.defaults (opts.defaults.getD [])).2 = none) :
    (register ver scope opts (some st)).2 = some .teardownAlreadySet := by
  rcases hrd : mergeDefaults st.collector.defaults (opts.defaults.getD []) with ⟨dd, de⟩
  rw [hrd] at hdef
  simp only at hdef
  subst hdef
  simp [register, hrd, hb, hst]

theorem register_default_dup (ver : Semver) (scope : Nat) (opts : RegOptions) (st : PState)
    (k : String)
    (hnd : ((opts.defaults.getD []).map Prod.fst).Nodup)
    (hk : k ∈ (opts.defaults.getD []).map Prod.fst)
    (ht : (objGet st.collector.defaults k).truthy = true) :
    ∃ k2, (register ver scope opts (some st)).2 = some (.defaultAlreadySet k2) ∧
      (objGet st.collector.defaults k2).truthy = true := by
  have hits := collectInto_hits RegErr.defaultAlreadySet (opts.defaults.getD [])
    st.collector.defaults ⟨k, hk, ht⟩
  rcases hrd : collectInto RegErr.defaultAlreadySet st.collector.defaults
    (opts.defaults.getD []) with ⟨dd, de⟩
  rw [hrd] at hits
  cases de with
  | none => simp at hits
  | some e =>
    rcases collectInto_err RegErr.defaultAlreadySet _ _ _ _ hnd hrd with ⟨n, _, he, ht2⟩
    refine ⟨n, ?_, ht2⟩
    simp [register, mergeDefaults, hrd, he]

theorem pick_keys (ids : List String) :
    ∀ (init : List (String × Option ModelDef)) (f : String → Option ModelDef),
    ids.Nodup → (∀ id ∈ ids, assocGet init id = none) →
    (ids.foldl (fun acc id => assocSet acc id (f id)) init).map Prod.fst =
      init.map Prod.fst ++ ids := by
  induction ids with
  | nil =>
    intro init f _ _
    simp
  | cons id rest ih =>
    intro init f hnd hfresh
    have hn : assocGet init id = none := hfresh id (by simp)
    have hfresh' : ∀ i ∈ rest, assocGet (init ++ [(id, f id)]) i = none := by
      intro i hi
      have hne : id ≠ i := fun hh => (List.nodup_cons.mp hnd).1 (hh ▸ hi)
      rw [assocGet_append_right _ (hfresh i (by simp [hi]))]
      simp [assocGet, hne]
    rw [List.foldl_cons, assocSet_of_none _ hn,
      ih (init ++ [(id, f id)]) f (List.nodup_cons.mp hnd).2 hfresh']
    simp

theorem assocGet_append_isSome {κ α : Type} [DecidableEq κ]
    {m1 m2 : List (κ × α)} {k : κ}
    (h : (assocGet m1 k).isSome = true ∨ (assocGet m2 k).isSome = true) :
    (assocGet (m1 ++ m2) k).isSome = true := by
  rcases h1 : assocGet m1 k with _ | v
  · rw [assocGet_append_right _ h1]
    rcases h with h | h
    · rw [h1] at h
      simp at h
    · exact h
  · rw [assocGet_append_left _ h1]
    rfl

theorem dogwater_err_scopes (scope : Nat) (cfg : DogwaterInput) (st : PState) (e : MergeErr)
    (h : (dogwater scope cfg st).2 = some e) :
    ((dogwater scope cfg st).1).scopes = st.scopes := by
  rcases hA : mergeAdapters st.collector.adapters (normalize cfg).adapters with ⟨aa, ae⟩
  rcases hC : mergeConnections st.collector.connections (normalize cfg).connections
    with ⟨cc, ce⟩
  rcases hM : mergeModels st.collector.models (normalize cfg).models with ⟨mm, me⟩
  cases ae <;> cases ce <;> cases me <;>
    simp_all [dogwater, dogwaterAdapters, dogwaterConnections, dogwaterModels, hA, hC, hM]

theorem dogwater_scope_grows (scope : Nat) (cfg : DogwaterInput) (st : PState) (s : Nat) :
    ∃ tail, scopeModels ((dogwater scope cfg st).1) s = scopeModels st s ++ tail := by
  rcases dogwater_scopes_cases scope cfg st with h | h
  · exact ⟨[], by rw [scopeModels, h, ← scopeModels, List.append_nil]⟩
  · by_cases hss : s = scope
    · subst hss
      refine ⟨(normalize cfg).models.map ModelDef.identity, ?_⟩
      rw [scopeModels, h, assocGet_scopeAppend_self]
      rfl
    · exact ⟨[], by
        rw [scopeModels, h, assocGet_scopeAppend_ne _ _ hss, ← scopeModels,
          List.append_nil]⟩

theorem reach_scope_subset (st : PState) (h : Reach st) :
    ∀ s id, id ∈ scopeModels st s → (assocGet st.collector.models id).isSome = true := by
  induction h with
  | init ver =>
    intro s id hid
    simp [pInit, scopeModels, assocGet] at hid
  | step s0 cfg hr ih =>
    rename_i st0
    intro s id hid
    have hpres : (assocGet st0.collector.models id).isSome = true →
        (assocGet ((dogwater s0 cfg st0).1).collector.models id).isSome = true := by
      intro hsome
      rcases Option.isSome_iff_exists.mp hsome with ⟨v, hv⟩
      rw [dogwater_models_preserves s0 cfg st0 id v hv]
      rfl
    rcases he : (dogwater s0 cfg st0).2 with _ | e
    · have hd : dogwater s0 cfg st0 = ((dogwater s0 cfg st0).1, none) := by
        rw [← he]
      rcases dogwater_ok s0 cfg st0 _ hd with ⟨hm, _, hsc⟩
      by_cases hss : s = s0
      · subst hss
        rw [scopeModels, hsc, assocGet_scopeAppend_self] at hid
        simp only [Option.getD_some] at hid
        rcases List.mem_append.mp hid with hid | hid
        · exact hpres (ih s id hid)
        · rw [hm]
          apply assocGet_append_isSome
          right
          rw [assocGet_isSome_iff, map_fst_modelPairs]
          exact hid
      · rw [scopeModels, hsc, assocGet_scopeAppend_ne _ _ hss, ← scopeModels] at hid
        exact hpres (ih s id hid)
    · rw [scopeModels, dogwater_err_scopes s0 cfg st0 e he, ← scopeModels] at hid
      exact hpres (ih s id hid)

end DogwaterLemmas

section Claims

/-- Claim C1: when a first fragment has been merged successfully into a fresh
collector and a second fragment reuses an adapter name, a connection name, or
a model identity already present in the collector, the merge of the second
fragment fails with a duplicate-registration error whose kind and key match an
entry actually present, and every entry inserted by the first registration is
still present and unchanged in the collector after the failure. -/
theorem C1_duplicate_rejected (version : String) (s1 s2 : Nat) (f1 f2 : Fragment)
    (st1 : PState)
    (hv1 : f1.validB = true) (hv2 : f2.validB = true)
    (h1 : dogwater s1 f1.toInput (pInit (semverSplit version)) = (st1, none))
    (hsh : sharesKeyB f2 st1.collector = true) :
    (∃ e, (dogwater s2 f2.toInput st1).2 = some e ∧ errNamesDupB st1.collector e = true) ∧
    (∀ k v, assocGet st1.collector.adapters k = some v →
      assocGet ((dogwater s2 f2.toInput st1).1).collector.adapters k = some v) ∧
    (∀ cs, st1.collector.connections = some cs → ∃ cs2,
      ((dogwater s2 f2.toInput st1).1).collector.connections = some cs2 ∧
      ∀ k v, assocGet cs k = some v → assocGet cs2 k = some v) ∧
    (∀ k v, assocGet st1.collector.models k = some v →
      assocGet ((dogwater s2 f2.toInput st1).1).collector.models k = some v) := by
  have hinv1 : CollectorInvB st1.collector = true := by
    have := dogwater_inv s1 f1 (pInit (semverSplit version)) hv1 (pInit_inv version)
    rw [h1] at this
    exact this
  rcases collectorInvB_parts hinv1 with ⟨hta, cs0, hcc0, htc0⟩
  refine ⟨?_, ?_, ?_, ?_⟩
  · have hits := dogwater_hits s2 f2 st1 hinv1 hsh
    rcases he : (dogwater s2 f2.toInput st1).2 with _ | e
    · rw [he] at hits
      simp at hits
    · exact ⟨e, rfl, dogwater_err s2 f2 st1 e hv2 hinv1 he⟩
  · intro k v hk
    exact dogwater_adapters_preserves s2 f2.toInput st1 k v hk (valuesTruthy_get hta hk)
  · intro cs hcs
    have hcseq : cs = cs0 := by
      rw [hcs] at hcc0
      exact Option.some.inj hcc0
    rcases dogwater_connections_preserves s2 f2.toInput st1 cs hcs with ⟨cs2, hc2, hpres⟩
    exact ⟨cs2, hc2, fun k v hk =>
      hpres k v hk (valuesTruthy_get (by rw [hcseq]; exact htc0) hk)⟩
  · intro k v hk
    exact dogwater_models_preserves s2 f2.toInput st1 k v hk

theorem C1_duplicate_rejected_witness :
    assocGet ((dogwater 1
      (Fragment.toInput ⟨[("a", JSValue.obj 4)], [], []⟩)
      ((dogwater 0
        (Fragment.toInput ⟨[("a", JSValue.obj 1)], [("c", JSValue.obj 2)],
          [⟨"m", JSValue.obj 3⟩]⟩)
        (pInit (semverSplit "0.12.1"))).1)).1).collector.models "m"
      = some ⟨"m", JSValue.obj 3⟩ :=
  (C1_duplicate_rejected "0.12.1" 0 1
    ⟨[("a", JSValue.obj 1)], [("c", JSValue.obj 2)], [⟨"m", JSValue.obj 3⟩]⟩
    ⟨[("a", JSValue.obj 4)], [], []⟩ _
    (by decide) (by decide) (by decide) (by decide)).2.2.2 "m" ⟨"m", JSValue.obj 3⟩
    (by decide)

/-- Claim C2: for every sequence of registrations whose adapter names,
connection names and model identities are pairwise disjoint, every merge
succeeds and the final collector's adapters, connections and models maps are
exactly the concatenation (union, in registration order) of all fragments'
entries, each key mapped to the definition its fragment supplied. -/
theorem C2_disjoint_union (version : String) (regs : List (Nat × DogwaterInput))
    (hA : (regs.flatMap fun r => ((normalize r.2).adapters.map Prod.fst)).Nodup)
    (hC : (regs.flatMap fun r => ((normalize r.2).connections.map Prod.fst)).Nodup)
    (hM : (regs.flatMap fun r => ((normalize r.2).models.map ModelDef.identity)).Nodup) :
    (runSeq regs (pInit (semverSplit version))).2 = none ∧
    (runSeq regs (pInit (semverSplit version))).1.collector.adapters =
      regs.flatMap (fun r => (normalize r.2).adapters) ∧
    (runSeq regs (pInit (semverSplit version))).1.collector.connections =
      some (regs.flatMap fun r => (normalize r.2).connections) ∧
    (runSeq regs (pInit (semverSplit version))).1.collector.models =
      regs.flatMap fun r => ((normalize r.2).models.map fun m => (m.identity, m)) := by
  have hconn : (pInit (semverSplit version)).collector.connections = some [] := by
    simp [pInit, initialCollector_semver]
  have hadap : (pInit (semverSplit version)).collector.adapters = [] := by
    simp [pInit, initialCollector_semver]
  have hmod : (pInit (semverSplit version)).collector.models = [] := by
    simp [pInit, initialCollector_semver]
  have h := runSeq_fresh regs (pInit (semverSplit version)) [] hconn hA
    (fun k _ => by rw [hadap]; rfl) hC (fun k _ => rfl)
    hM (fun id _ => by rw [hmod]; rfl)
  rcases h with ⟨h1, h2, h3, h4⟩
  refine ⟨h1, ?_, ?_, ?_⟩
  · rw [h2, hadap]
    rfl
  · rw [h3]
    rfl
  · rw [h4, hmod]
    rfl

theorem C2_disjoint_union_witness :
    (runSeq [(0, DogwaterInput.arr [⟨"user", JSValue.obj 1⟩]),
             (1, DogwaterInput.obj (some [("ad", JSValue.obj 2)])
                (some [("cn", JSValue.obj 3)]) (some [⟨"product", JSValue.obj 4⟩]))]
      (pInit (semverSplit "0.12.1"))).1.collector.models =
      [("user", ⟨"user", JSValue.obj 1⟩), ("product", ⟨"product", JSValue.obj 4⟩)] := by
  rw [(C2_disjoint_union "0.12.1" _ (by decide) (by decide) (by decide)).2.2.2]
  decide

/-- Claim C3: after a successful sequence of registrations followed by ORM
initialization, the keys of the "all" collections accessor are exactly the
model identities registered across all scopes (in registration order), and
for every scope, the keys of the scoped accessor are exactly the identities
that scope itself registered — none from other scopes, none of its own
missing. -/
theorem C3_collections_exact (version : String) (regs : List (Nat × DogwaterInput))
    (st : PState)
    (h : runSeq regs (pInit (semverSplit version)) = (st, none)) :
    (∀ ids, (collections (initializeOrm st.collector).2 true ids).map Prod.fst =
      regs.flatMap fun r => ((normalize r.2).models.map ModelDef.identity)) ∧
    (∀ s, (collections (initializeOrm st.collector).2 false (scopeModels st s)).map
        Prod.fst =
      (regs.filter fun r => r.1 == s).flatMap fun r =>
        ((normalize r.2).models.map ModelDef.identity)) := by
  have hmod : (pInit (semverSplit version)).collector.models = [] := by
    simp [pInit, initialCollector_semver]
  have hs0 : ∀ s, scopeModels (pInit (semverSplit version)) s = [] := by
    intro s
    simp [pInit, scopeModels, assocGet]
  rcases runSeq_ok regs _ st h with ⟨h1, h2, h3⟩
  rw [hmod] at h1
  simp only [List.map_nil, List.nil_append] at h1
  have hinv := h3 (by rw [hmod]; simp)
    (fun s => by rw [hs0 s, hmod]; simp)
  constructor
  · intro ids
    have hall : collections (initializeOrm st.collector).2 true ids =
        st.collector.models.map (fun p => (p.1, some p.2)) := by
      simp [collections, initializeOrm, waterlineInit]
    rw [hall, List.map_map]
    exact h1
  · intro s
    have hnds : (scopeModels st s).Nodup := (hinv.2 s).nodup hinv.1
    have hsc : collections (initializeOrm st.collector).2 false (scopeModels st s) =
        (scopeModels st s).foldl
          (fun acc id => assocSet acc id (assocGet st.collector.models id)) [] := by
      simp [collections, initializeOrm, waterlineInit]
    rw [hsc, pick_keys _ [] _ hnds (fun id _ => rfl)]
    rw [List.map_nil, List.nil_append, h2 s, hs0 s, List.nil_append]

theorem C3_collections_exact_witness :
    (collections (initializeOrm ((runSeq
        [(0, DogwaterInput.arr [⟨"user", JSValue.obj 1⟩, ⟨"session", JSValue.obj 1⟩]),
         (1, DogwaterInput.arr [⟨"product", JSValue.obj 2⟩])]
      (pInit (semverSplit "0.12.1"))).1).collector).2 false
      (scopeModels ((runSeq
        [(0, DogwaterInput.arr [⟨"user", JSValue.obj 1⟩, ⟨"session", JSValue.obj 1⟩]),
         (1, DogwaterInput.arr [⟨"product", JSValue.obj 2⟩])]
      (pInit (semverSplit "0.12.1"))).1) 0)).map Prod.fst = ["user", "session"] := by
  rw [(C3_collections_exact "0.12.1"
    [(0, DogwaterInput.arr [⟨"user", JSValue.obj 1⟩, ⟨"session", JSValue.obj 1⟩]),
     (1, DogwaterInput.arr [⟨"product", JSValue.obj 2⟩])]
    ((runSeq
        [(0, DogwaterInput.arr [⟨"user", JSValue.obj 1⟩, ⟨"session", JSValue.obj 1⟩]),
         (1, DogwaterInput.arr [⟨"product", JSValue.obj 2⟩])]
      (pInit (semverSplit "0.12.1"))).1) (by decide)).2 0]
  decide

/-- Claim C4: on shutdown, an unset `teardownOnStop` (still `null`) invokes
the engine teardown, while an explicit `false` skips it. -/
theorem C4_teardown_policy (c : Collector) :
    (c.teardownOnStop = none → stop c = .teardownCalled) ∧
    (c.teardownOnStop = some false → stop c = .skipped) := by
  constructor <;> intro h <;> simp [stop, h]

theorem C4_teardown_policy_witness :
    stop { adapters := [], connections := some [], datastores := none, models := [],
           defaults := [], teardownOnStop := none } = .teardownCalled ∧
    stop { adapters := [], connections := some [], datastores := none, models := [],
           defaults := [], teardownOnStop := some false } = .skipped :=
  ⟨(C4_teardown_policy _).1 rfl, (C4_teardown_policy _).2 rfl⟩

/-- Claim C5: if a first registration supplies `teardownOnStop` and succeeds,
then a second registration that also supplies it never succeeds (even with
the same value, since `b1` and `b2` are unconstrained), and whenever its
defaults loop — which the source runs first — does not itself fail, the
error is precisely the already-set error for `teardownOnStop`. -/
theorem C5_teardown_once (version : String) (s1 s2 : Nat) (opts1 opts2 : RegOptions)
    (b1 b2 : Bool)
    (hb1 : opts1.teardownOnStop = some b1) (hb2 : opts2.teardownOnStop = some b2)
    (h1 : (register (semverSplit version) s1 opts1 none).2 = none) :
    (((register (semverSplit version) s2 opts2
        (some (register (semverSplit version) s1 opts1 none).1)).2).isSome = true) ∧
    ((mergeDefaults
        ((register (semverSplit version) s1 opts1 none).1).collector.defaults
        (opts2.defaults.getD [])).2 = none →
      (register (semverSplit version) s2 opts2
        (some (register (semverSplit version) s1 opts1 none).1)).2
        = some .teardownAlreadySet) := by
  have hts := register_sets_teardown version s1 opts1 b1 hb1 h1
  constructor
  · generalize hg : (register (semverSplit version) s1 opts1 none).1 = st1 at hts ⊢
    rcases hrd : mergeDefaults st1.collector.defaults (opts2.defaults.getD [])
      with ⟨dd, de⟩
    cases de with
    | some e =>
      simp [register, hrd]
    | none =>
      rw [register_teardown_already _ s2 _ _ b1 b2 hts hb2 (by rw [hrd])]
      rfl
  · intro hdef
    exact register_teardown_already _ s2 _ _ b1 b2 hts hb2 hdef

theorem C5_teardown_once_witness :
    (register (semverSplit "0.12.1") 1
      { adapters := none, connections := none, models := none, defaults := none,
        teardownOnStop := some true }
      (some (register (semverSplit "0.12.1") 0
        { adapters := none, connections := none, models := none, defaults := none,
          teardownOnStop := some true } none).1)).2
      = some .teardownAlreadySet :=
  (C5_teardown_once "0.12.1" 0 1 _ _ true true rfl rfl (by decide)).2 (by decide)

/-- Claim C6 counterexample: a default stored with the falsy value `false`
(here `autoPK := false`, a realistic Waterline default) does NOT make a second
registration of the same key fail: the source's `!collector.defaults[key]`
truthiness check treats it as unset, the second registration succeeds and
overwrites the value — refuting the claim that a second registration for an
already-set key fails regardless of the stored value. -/
theorem C6_counterexample :
    (register (semverSplit "0.12.1") 0
      { adapters := none, connections := none, models := none,
        defaults := some [("autoPK", JSValue.bool false)], teardownOnStop := none }
      none).2 = none ∧
    (register (semverSplit "0.12.1") 0
      { adapters := none, connections := none, models := none,
        defaults := some [("autoPK", JSValue.bool true)], teardownOnStop := none }
      (some (register (semverSplit "0.12.1") 0
        { adapters := none, connections := none, models := none,
          defaults := some [("autoPK", JSValue.bool false)], teardownOnStop := none }
        none).1)).2 = none ∧
    assocGet ((register (semverSplit "0.12.1") 0
      { adapters := none, connections := none, models := none,
        defaults := some [("autoPK", JSValue.bool true)], teardownOnStop := none }
      (some (register (semverSplit "0.12.1") 0
        { adapters := none, connections := none, models := none,
          defaults := some [("autoPK", JSValue.bool false)], teardownOnStop := none }
        none).1)).1).collector.defaults "autoPK" = some (JSValue.bool true) := by
  decide

/-- Claim C6 (amended): a key in `defaults` is settable only once while its
stored value is truthy: a second registration supplying a default for a key
whose currently stored value is truthy fails with the already-set error,
naming a key whose stored value is truthy; a key stored with a falsy value
(such as `false`, `0` or `""`) is treated as unset by the source's
truthiness check and is silently overwritten instead. -/
theorem C6_default_once_truthy (ver : Semver) (scope : Nat) (opts : RegOptions)
    (st : PState) (k : String)
    (hnd : ((opts.defaults.getD []).map Prod.fst).Nodup)
    (hk : k ∈ (opts.defaults.getD []).map Prod.fst)
    (ht : (objGet st.collector.defaults k).truthy = true) :
    ∃ k2, (register ver scope opts (some st)).2 = some (.defaultAlreadySet k2) ∧
      (objGet st.collector.defaults k2).truthy = true :=
  register_default_dup ver scope opts st k hnd hk ht

theorem C6_default_once_truthy_witness :
    ((register (semverSplit "0.12.1") 0
      { adapters := none, connections := none, models := none,
        defaults := some [("migrate", JSValue.str "safe")], teardownOnStop := none }
      (some { collector := { adapters := [], connections := some [], datastores := none,
                             models := [], defaults := [("migrate", JSValue.str "alter")],
                             teardownOnStop := none },
              scopes := [] })).2).isSome = true := by
  rcases C6_default_once_truthy (semverSplit "0.12.1") 0
    { adapters := none, connections := none, models := none,
      defaults := some [("migrate", JSValue.str "safe")], teardownOnStop := none }
    { collector := { adapters := [], connections := some [], datastores := none,
                     models := [], defaults := [("migrate", JSValue.str "alter")],
                     teardownOnStop := none },
      scopes := [] }
    "migrate" (by decide) (by decide) (by decide) with ⟨k2, hk2, _⟩
  rw [hk2]
  rfl

/-- Claim C7: registering a bare array of model definitions leaves the whole
state (collector and the calling scope's record) exactly as registering the
object-shaped input with only `models` populated: lines 156-159 coerce the
array to `{ models: config }` before the merge. -/
theorem C7_array_object_equiv (scope : Nat) (ms : List ModelDef) (st : PState) :
    dogwater scope (.arr ms) st = dogwater scope (.obj none none (some ms)) st := rfl

/-- Claim C8: before the engine has produced its collections
(`waterline.collections` undefined), both accessor variants return the empty
mapping rather than failing. -/
theorem C8_empty_before_init (w : WaterlineState) (all : Bool) (ids : List String)
    (h : w.collections = none) : collections w all ids = [] := by
  simp [collections, h]

theorem C8_empty_before_init_witness :
    collections { collections := none } true ["user"] = [] ∧
    collections { collections := none } false ["user"] = [] :=
  ⟨C8_empty_before_init _ _ _ rfl, C8_empty_before_init _ _ _ rfl⟩

/-- Claim C9: in every reachable state (any sequence of registrations, with
or without failures), every identity in a scope's record is a key present in
the collector's models map, and one more registration step only ever appends
to a scope's record (never removes or reorders). -/
theorem C9_scope_invariant (st : PState) (h : Reach st) :
    (∀ s id, id ∈ scopeModels st s →
      (assocGet st.collector.models id).isSome = true) ∧
    (∀ s scope cfg, ∃ tail,
      scopeModels ((dogwater scope cfg st).1) s = scopeModels st s ++ tail) :=
  ⟨reach_scope_subset st h, fun s scope cfg => dogwater_scope_grows scope cfg st s⟩

theorem C9_scope_invariant_witness :
    ∃ tail,
      scopeModels ((dogwater 0 (DogwaterInput.arr [⟨"user", JSValue.obj 1⟩])
        ((dogwater 0 (DogwaterInput.arr [⟨"session", JSValue.obj 2⟩])
          (pInit (semverSplit "0.12.1"))).1)).1) 0 =
      scopeModels ((dogwater 0 (DogwaterInput.arr [⟨"session", JSValue.obj 2⟩])
        (pInit (semverSplit "0.12.1"))).1) 0 ++ tail :=
  (C9_scope_invariant _ (Reach.step 0 (DogwaterInput.arr [⟨"session", JSValue.obj 2⟩])
    (Reach.init (semverSplit "0.12.1")))).2 0 0
    (DogwaterInput.arr [⟨"user", JSValue.obj 1⟩])

/-- Claim C10 counterexample: at Waterline version "0.13.4" (major 0, minor
13) the claim says `connections` is replaced by a `datastores` alias, set to
undefined, and a registration with one connection then raises a TypeError.
In fact the guard `WaterlineVersion.MAJOR === 0` compares the string "0" to
the number 0, which is false, so nothing is renamed: `datastores` stays
absent, `connections` stays the empty map, the merge of a fragment with one
connection succeeds, and initialization passes the real connections map. -/
theorem C10_counterexample :
    (initialCollector (semverSplit "0.13.4")).connections = some [] ∧
    (initialCollector (semverSplit "0.13.4")).datastores = none ∧
    (dogwater 0 (.obj none (some [("c1", JSValue.obj 1)]) none)
      (pInit (semverSplit "0.13.4"))).2 = none ∧
    (initializeOrm ((dogwater 0 (.obj none (some [("c1", JSValue.obj 1)]) none)
      (pInit (semverSplit "0.13.4"))).1).collector).1.connections
      = some [("c1", JSValue.obj 1)] := by
  decide

/-- Claim C10 (amended): the version guard compares the string MAJOR part to
the number 0 with strict equality, which is false for every version string,
so the datastores rename never happens: the fresh collector always keeps
`connections` defined and has no `datastores` alias, merging any fragment
into a state whose connections map is defined never raises the TypeError and
leaves connections defined, and initialization passes the collector's actual
connections map to the engine. -/
theorem C10_branch_dead (version : String) (scope : Nat) (input : DogwaterInput)
    (st : PState) (cs : List (String × JSValue))
    (hc : st.collector.connections = some cs) :
    (initialCollector (semverSplit version)).connections = some [] ∧
    (initialCollector (semverSplit version)).datastores = none ∧
    (dogwater scope input st).2 ≠ some .typeError ∧
    (((dogwater scope input st).1).collector.connections).isSome = true ∧
    (initializeOrm st.collector).1.connections = st.collector.connections := by
  have hic := initialCollector_semver version
  refine ⟨by rw [hic], by rw [hic], dogwater_no_typeError scope input st cs hc, ?_, rfl⟩
  rcases dogwater_connections_preserves scope input st cs hc with ⟨cs2, h2, _⟩
  rw [h2]
  rfl

theorem C10_branch_dead_witness :
    (dogwater 0 (.obj none (some [("c1", JSValue.obj 1)]) none)
      (pInit (semverSplit "0.13.4"))).2 ≠ some .typeError :=
  (C10_branch_dead "0.13.4" 0 (.obj none (some [("c1", JSValue.obj 1)]) none)
    (pInit (semverSplit "0.13.4")) [] (by decide)).2.2.1

end Claims

end Dogwater
